import Mathlib

/-!
Verification development for the `monarch` reporting tool (`monarch.py`).

The repository retrieves accounts, transactions and investment holdings from a
financial-aggregation service, flattens the nested responses into row records
(`Account`, `Transaction`, `Holding`) and writes CSV reports.  The parts with
actual logic are:

* a marshmallow schema layer mapping responses to rows, including a
  category-id → group-name dictionary (`CategoryQuerySchema.make_map`) that the
  transaction mapper consults (`Transaction.__init__`);
* Python `decimal.Decimal` carrying of monetary fields, rendered back with
  `str(...)` at CSV-write time;
* timestamp handling: `updatedAt.astimezone(America/New_York).date()`;
* a tenacity retry wrapper around each RPC call: retry once on a
  `TransportServerError` with `code == 401`, after forcing a re-login on a
  brand-new `MonarchMoney` client instance (`login(False)` → `_init_mm`);
* the report writers (`write_balances_history` appends, writing a header only
  when the file is empty; `report_portfolio` queries holdings only for
  accounts with `holdingsCount > 0` and backfills the account name).

This file embeds those pieces shallowly and proves the spec's claims about
them.  External-library behaviour that the code relies on is embedded from the
libraries' documented semantics: Python `dict` assignment (insertion order
kept, in-place overwrite), Python `decimal.Decimal` construction and
`__str__` (IBM General Decimal Arithmetic `to-scientific-string`), `csv`
QUOTE_ALL quoting, `datetime`/`zoneinfo` civil-calendar conversion (Howard
Hinnant's algorithms, US-Eastern DST rule in force since 2007), and the
tenacity retry loop configured with `stop_after_attempt(2)`,
`retry_if_exception_type(TransportServerError) & retry_if_exception(is_exception_401)`,
`before_sleep=login_before_sleep`, `reraise=True`.
-/

/-! ### Python `decimal.Decimal`

A `Decimal` value is a sign, a coefficient (kept here as its list of digits,
never with a leading zero except for the single digit `0`) and an exponent.
`monarch.py` feeds response text into `marshmallow.fields.Decimal` (which
builds `decimal.Decimal` from it) and renders with `str(...)` — explicitly in
`Holding.__init__` and implicitly in the `csv` writers.
-/

/-- The source text of a decimal-valued response field, split at the decimal
point: an optional minus sign, the digits before the point, and the digits
after it (`[]` when the literal has no fractional part). -/
structure DecLiteral where
  neg : Bool
  intPart : List Nat
  fracPart : List Nat
deriving Repr, DecidableEq

/-- A Python `decimal.Decimal` value: sign, coefficient digits, exponent. -/
structure PyDecimal where
  sign : Bool
  digits : List Nat
  exp : Int
deriving Repr, DecidableEq

def digitChar (d : Nat) : Char := Char.ofNat (48 + d)

def digitsStr (ds : List Nat) : String := String.mk (ds.map digitChar)

/-- Render a `DecLiteral` back to its source text. -/
def DecLiteral.render (l : DecLiteral) : String :=
  (if l.neg then "-" else "") ++ digitsStr l.intPart ++
    (if l.fracPart.isEmpty then "" else "." ++ digitsStr l.fracPart)

/-- Drop leading zeros from a coefficient digit string, keeping at least one
digit — what `decimal.Decimal` construction does to the concatenated digits of
a numeric literal. -/
def stripZeros : List Nat → List Nat
  | [] => [0]
  | [d] => [d]
  | d :: ds => if d = 0 then stripZeros ds else d :: ds

/-- `decimal.Decimal` built from a plain (exponent-free) numeric literal:
coefficient = the literal's digits with leading zeros dropped, exponent =
minus the number of fractional digits. -/
def decOfLit (l : DecLiteral) : PyDecimal :=
  { sign := l.neg
    digits := stripZeros (l.intPart ++ l.fracPart)
    exp := -(l.fracPart.length : Int) }

/-- Python `str(Decimal)`: the General Decimal Arithmetic
`to-scientific-string` conversion.  Plain notation when `exp ≤ 0` and the
adjusted exponent is at least `-6`; scientific notation otherwise. -/
def decToString (x : PyDecimal) : String :=
  let s := if x.sign then "-" else ""
  let n : Int := x.digits.length
  let adjusted : Int := x.exp + n - 1
  if x.exp ≤ 0 ∧ -6 ≤ adjusted then
    if x.exp = 0 then
      s ++ digitsStr x.digits
    else
      let point : Int := n + x.exp
      if 0 < point then
        s ++ digitsStr (x.digits.take point.toNat) ++ "." ++
          digitsStr (x.digits.drop point.toNat)
      else
        s ++ "0." ++ digitsStr (List.replicate (-point).toNat 0 ++ x.digits)
  else
    let expStr := (if 0 ≤ adjusted then "E+" else "E") ++ toString adjusted
    match x.digits with
    | [] => s ++ expStr
    | [d] => s ++ digitsStr [d] ++ expStr
    | d :: ds => s ++ digitsStr [d] ++ "." ++ digitsStr ds ++ expStr

example : decToString (decOfLit ⟨false, [1, 8, 1, 1], [7, 1]⟩) = "1811.71" := by decide
example : decToString (decOfLit ⟨false, [0], [1, 0]⟩) = "0.10" := by decide
example : decToString (decOfLit ⟨false, [0], [0, 0, 0, 0, 0, 0, 1]⟩) = "1E-7" := by decide
example : decToString (decOfLit ⟨true, [2, 2, 2, 7], [6]⟩) = "-2227.6" := by decide
example : DecLiteral.render ⟨false, [0], [0, 0, 0, 0, 0, 0, 1]⟩ = "0.0000001" := by decide

/-! ### Civil calendar and the US-Eastern time zone

`Account.__init__` keeps `updatedAt` (a timezone-aware instant; the service
reports UTC) and derives `date_eastern` by
`updatedAt.astimezone(zoneinfo.ZoneInfo("America/New_York")).date().isoformat()`.
Instants are embedded as seconds since the Unix epoch; the calendar
conversions are Howard Hinnant's `days_from_civil` / `civil_from_days`, and
the America/New_York offset follows the rule in force since 2007: UTC-4
between 07:00 UTC of the second Sunday in March and 06:00 UTC of the first
Sunday in November, UTC-5 otherwise.
-/

/-- Day number (days since 1970-01-01) of a civil date. -/
def daysFromCivil (y m d : Int) : Int :=
  let y := y - (if m ≤ 2 then 1 else 0)
  let era := y / 400
  let yoe := y - era * 400
  let doy := (153 * (m + (if 2 < m then -3 else 9)) + 2) / 5 + d - 1
  let doe := yoe * 365 + yoe / 4 - yoe / 100 + doy
  era * 146097 + doe - 719468

/-- Civil date `(year, month, day)` of a day number. -/
def civilFromDays (z : Int) : Int × Int × Int :=
  let z := z + 719468
  let era := z / 146097
  let doe := z - era * 146097
  let yoe := (doe - doe / 1460 + doe / 36524 - doe / 146096) / 365
  let y := yoe + era * 400
  let doy := doe - (365 * yoe + yoe / 4 - yoe / 100)
  let mp := (5 * doy + 2) / 153
  let d := doy - (153 * mp + 2) / 5 + 1
  let m := mp + (if mp < 10 then 3 else -9)
  (y + (if m ≤ 2 then 1 else 0), m, d)

def pad2 (n : Int) : String := if n < 10 then "0" ++ toString n else toString n

def pad4 (n : Int) : String :=
  if n < 10 then "000" ++ toString n
  else if n < 100 then "00" ++ toString n
  else if n < 1000 then "0" ++ toString n
  else toString n

/-- `date.isoformat()` on a `(year, month, day)` triple. -/
def isoDate (ymd : Int × Int × Int) : String :=
  pad4 ymd.1 ++ "-" ++ pad2 ymd.2.1 ++ "-" ++ pad2 ymd.2.2

/-- Day number of the first Sunday on or after the given day number.
Day 0 (1970-01-01) was a Thursday, so `(z + 4) % 7 = 0` marks Sundays. -/
def firstSundayOnOrAfter (z : Int) : Int := z + (7 - (z + 4) % 7) % 7

/-- Epoch second at which America/New_York switches to daylight time in year
`y`: 02:00 EST (= 07:00 UTC) on the second Sunday in March. -/
def dstStartUtc (y : Int) : Int :=
  firstSundayOnOrAfter (daysFromCivil y 3 8) * 86400 + 7 * 3600

/-- Epoch second at which America/New_York returns to standard time in year
`y`: 02:00 EDT (= 06:00 UTC) on the first Sunday in November. -/
def dstEndUtc (y : Int) : Int :=
  firstSundayOnOrAfter (daysFromCivil y 11 1) * 86400 + 6 * 3600

/-- UTC offset (in seconds) of America/New_York at a given instant. -/
def easternOffset (t : Int) : Int :=
  let y := (civilFromDays (t / 86400)).1
  if dstStartUtc y ≤ t ∧ t < dstEndUtc y then -14400 else -18000

def padTo6 (n : Nat) : String :=
  let s := toString n
  String.mk (List.replicate (6 - s.length) '0') ++ s

/-- `datetime.isoformat()` of a UTC instant (epoch seconds plus a microsecond
part, printed only when nonzero, exactly as Python does). -/
def isoDatetimeUtc (t : Int) (usec : Nat) : String :=
  let sod := t % 86400
  isoDate (civilFromDays (t / 86400)) ++ "T" ++ pad2 (sod / 3600) ++ ":" ++
    pad2 (sod % 3600 / 60) ++ ":" ++ pad2 (sod % 60) ++
    (if usec = 0 then "" else "." ++ padTo6 usec) ++ "+00:00"

example : daysFromCivil 1970 1 1 = 0 := by decide
example : civilFromDays (daysFromCivil 2026 1 12) = (2026, 1, 12) := by decide
example :
    isoDatetimeUtc (daysFromCivil 2026 1 12 * 86400 + 14 * 3600 + 28 * 60 + 13) 637497 =
      "2026-01-12T14:28:13.637497+00:00" := by decide
example : easternOffset (daysFromCivil 2026 1 12 * 86400) = -18000 := by decide
example : easternOffset (daysFromCivil 2026 7 1 * 86400) = -14400 := by decide

/-! ### The category → group dictionary

`CategoryQuerySchema.make_map` builds a Python `dict` mapping `str(x["id"])`
to `x["group"]["name"]` by iterating over the validated category list.  The
`dict` is embedded as an association list in insertion order; assignment
updates the first (and, as produced by `dict`, only) binding of an existing
key in place and appends a new key at the end — Python `dict` semantics.
-/

/-- One entry of the validated category-list response: `id` (required `Int`
field), `name`, and the nested group's display name. -/
structure Category where
  id : Int
  name : String
  group_name : String
deriving Repr, DecidableEq

/-- Python `dict` assignment `m[k] = v` on an insertion-ordered association
list: overwrite the first binding of `k` in place, else append. -/
def dinsert : List (String × String) → String → String → List (String × String)
  | [], k, v => [(k, v)]
  | (k', v') :: rest, k, v =>
    if k' = k then (k', v) :: rest else (k', v') :: dinsert rest k v

/-- Python `dict` lookup `m[k]`, `none` when the key is absent (`KeyError`). -/
def dlookup : List (String × String) → String → Option String
  | [], _ => none
  | (k', v') :: rest, k => if k' = k then some v' else dlookup rest k

/-- `CategoryQuerySchema.make_map`: fold the category list into the
`str(id) → group name` dictionary. -/
def make_map (cats : List Category) : List (String × String) :=
  cats.foldl (fun m x => dinsert m (toString x.id) x.group_name) []

/-! ### Row records

The marshmallow schemas validate the nested responses and the `post_load`
hooks flatten them into `Account`, `Transaction` and `Holding` objects.
Validated rows are embedded as structures holding exactly the fields the
constructors read; decimal-valued fields carry the response text as a
`DecLiteral` and the schema's `fields.Decimal` turns it into a `PyDecimal`.
-/

/-- A validated `AccountSchema` row (`id`, `displayName`, `currentBalance`,
`holdingsCount`, `updatedAt`); `updatedAt` is the parsed timezone-aware
instant, as epoch seconds plus microseconds. -/
structure AccountRow where
  id : Int
  displayName : String
  currentBalance : DecLiteral
  holdingsCount : Int
  updatedAt : Int
  updatedAtUsec : Nat
deriving Repr, DecidableEq

/-- The flattened `Account` object built by `Account.__init__`. -/
structure Account where
  id : Int
  account : String
  balance : PyDecimal
  holdingsCount : Int
  datetime : String
  date_eastern : String
deriving Repr, DecidableEq

/-- `Account.__init__`: keep id / display name / balance / holdings count,
render the UTC instant with `isoformat()`, and derive `date_eastern` by
converting the instant into America/New_York before taking the date. -/
def Account.ofRow (row : AccountRow) : Account :=
  { id := row.id
    account := row.displayName
    balance := decOfLit row.currentBalance
    holdingsCount := row.holdingsCount
    datetime := isoDatetimeUtc row.updatedAt row.updatedAtUsec
    date_eastern :=
      isoDate (civilFromDays ((row.updatedAt + easternOffset row.updatedAt) / 86400)) }

/-- A validated `TransactionSchema` row: own fields plus the names pulled out
of the nested `merchant`, `account` and `category` objects. -/
structure TxRow where
  id : Int
  amount : DecLiteral
  date : String
  notes : Option String
  merchant_name : String
  account_displayName : String
  category_id : Int
  category_name : String
deriving Repr, DecidableEq

/-- The flattened `Transaction` object. -/
structure Transaction where
  date : String
  merchant : String
  category : String
  group : String
  account : String
  notes : Option String
  amount : PyDecimal
deriving Repr, DecidableEq

/-- The field assignments of `Transaction.__init__` once the category-group
lookup has produced `g`. -/
def Transaction.fromRowG (row : TxRow) (g : String) : Transaction :=
  { date := row.date
    merchant := row.merchant_name
    category := row.category_name
    group := g
    account := row.account_displayName
    notes := row.notes
    amount := decOfLit row.amount }

/-- `Transaction.__init__`: `self.group = catmap[str(row["category"]["id"])]`
raises `KeyError` when the id is missing from the lookup, so construction is
fallible. -/
def Transaction.fromRow (catmap : List (String × String)) (row : TxRow) :
    Option Transaction :=
  (dlookup catmap (toString row.category_id)).map (Transaction.fromRowG row)

/-- `TransactionsQuerySchema.make_csv_rows`: build one `Transaction` per
result row, in order; the first `KeyError` aborts the whole comprehension. -/
def make_csv_rows (catmap : List (String × String)) :
    List TxRow → Option (List Transaction)
  | [] => some []
  | r :: rs =>
    match Transaction.fromRow catmap r, make_csv_rows catmap rs with
    | some t, some ts => some (t :: ts)
    | _, _ => none

/-- A validated `AggregateHoldingSchema` node together with its nested
`SecuritySchema` fields. -/
structure AggregateHoldingRow where
  id : Int
  quantity : DecLiteral
  basis : DecLiteral
  security_ticker : String
  security_currentPrice : DecLiteral
deriving Repr, DecidableEq

/-- The flattened `Holding` object; `account` starts out `None` and is
backfilled by `report_portfolio`. -/
structure Holding where
  account : Option String
  ticker : String
  shares : String
  price : String
  cost : String
deriving Repr, DecidableEq

/-- `Holding.__init__`: `account = None`, ticker from the security, and the
three decimal fields rendered with `str(...)` at construction time. -/
def Holding.ofRow (node : AggregateHoldingRow) : Holding :=
  { account := none
    ticker := node.security_ticker
    shares := decToString (decOfLit node.quantity)
    price := decToString (decOfLit node.security_currentPrice)
    cost := decToString (decOfLit node.basis) }

/-- `HoldingsQuerySchema.make_csv_rows`: one `Holding` per edge, in order. -/
def holdings_csv_rows (edges : List AggregateHoldingRow) : List Holding :=
  edges.map Holding.ofRow

/-! ### CSV serialization and the report writers

The writers use `csv.DictWriter` with `quoting=csv.QUOTE_ALL` (every value
quoted, embedded quotes doubled) and fixed header lists; `extrasaction` set to
ignore drops the `Account` fields that are not in `BALANCES_HEADER`.  A file
is embedded as its list of lines; `write_balances_history` opens in append
mode and writes the header only when `f.tell() == 0`, i.e. when the file is
empty or did not exist.
-/

def PORTFOLIO_HEADER : List String := ["account", "ticker", "shares", "price", "cost"]

def TRANSACTIONS_HEADER : List String :=
  ["date", "merchant", "category", "group", "account", "notes", "amount"]

def BALANCES_HEADER : List String := ["account", "balance", "date_eastern", "datetime"]

/-- One QUOTE_ALL CSV field: the value wrapped in double quotes, embedded
double quotes doubled. -/
def csvField (s : String) : String := "\"" ++ s.replace "\"" "\"\"" ++ "\""

/-- One CSV line: every field quoted, joined with commas. -/
def csvLine (fields : List String) : String := String.intercalate "," (fields.map csvField)

/-- The `BALANCES_HEADER` columns of an `Account`'s `__dict__`, stringified
the way `csv.DictWriter` does (`str` on the `Decimal` balance). -/
def balancesRowLine (a : Account) : String :=
  csvLine [a.account, decToString a.balance, a.date_eastern, a.datetime]

/-- The `TRANSACTIONS_HEADER` columns of a `Transaction`'s `__dict__`
(`None` notes become the empty field, the `Decimal` amount is stringified). -/
def transactionsRowLine (t : Transaction) : String :=
  csvLine [t.date, t.merchant, t.category, t.group, t.account,
    t.notes.getD "", decToString t.amount]

/-- The `PORTFOLIO_HEADER` columns of a `Holding`'s `__dict__`. -/
def portfolioRowLine (h : Holding) : String :=
  csvLine [h.account.getD "", h.ticker, h.shares, h.price, h.cost]

/-- `Monarch.write_transactions`: overwrite the report with a header line and
one line per transaction. -/
def write_transactions (transactions : List Transaction) : List String :=
  csvLine TRANSACTIONS_HEADER :: transactions.map transactionsRowLine

/-- `Monarch.write_balances`: overwrite the report with a header line and one
line per account. -/
def write_balances (accounts : List Account) : List String :=
  csvLine BALANCES_HEADER :: accounts.map balancesRowLine

/-- `Monarch.write_balances_history`: append to the existing file contents,
writing the header first only when the file was empty (`f.tell() == 0`). -/
def write_balances_history (file : List String) (accounts : List Account) :
    List String :=
  file ++ (if file.isEmpty then [csvLine BALANCES_HEADER] else []) ++
    accounts.map balancesRowLine

/-- `Monarch.write_portfolio`: overwrite the report with a header line and one
line per holding. -/
def write_portfolio (holdings : List Holding) : List String :=
  csvLine PORTFOLIO_HEADER :: holdings.map portfolioRowLine

/-- `Monarch.report_transactions`: build the category map, map the
transactions with it, and write the CSV.  An error while mapping propagates
(`schema.load` raises) and nothing is written, hence the `Option`. -/
def report_transactions (cats : List Category) (txs : List TxRow) :
    Option (List String) :=
  (make_csv_rows (make_map cats) txs).map write_transactions

/-- `Monarch.report_portfolio`: walk the account list in order; for each
account with `int(holdingsCount) > 0` fetch its holdings (`fetch` is the
underlying RPC, keyed by account id), map them, backfill each holding's
`account` with the owning account's display name, and collect.  Returns the
ids queried (in call order) together with the accumulated holdings. -/
def report_portfolio (fetch : Int → List AggregateHoldingRow)
    (accounts_query : List Account) : List Int × List Holding :=
  accounts_query.foldl
    (fun acc account =>
      if 0 < account.holdingsCount then
        let holdings_query := holdings_csv_rows (fetch account.id)
        let filled := holdings_query.map fun x => { x with account := some account.account }
        (acc.1 ++ [account.id], acc.2 ++ filled)
      else acc)
    ([], [])

/-! ### The retry-on-401 controller

Every RPC wrapper (`get_categories`, `get_transactions`, `get_accounts`,
`get_holdings`) carries the same tenacity decorator:
`retry_if_exception_type(TransportServerError) & retry_if_exception(is_exception_401)`,
`stop_after_attempt(2)`, `before_sleep=login_before_sleep`, `reraise=True`.
Errors carry their class (is it a `TransportServerError`?) and their `code`
attribute.  The mutable `Monarch` object is embedded as `MonarchState`;
client-object identity is tracked by a generation counter `gen` so that "a
brand-new `MonarchMoney` instance" is observable, and every `self.mm.login`
call is logged with the generation it ran against and its
`use_saved_session` flag.
-/

/-- An error raised by an RPC attempt: its class marker and `code`. -/
structure MMError where
  isTransportServerError : Bool
  code : Int
deriving Repr, DecidableEq

/-- `is_exception_401`: the error's explicit `code` marker equals 401. -/
def is_exception_401 (e : MMError) : Bool := e.code == 401

/-- The decorator's retry condition:
`retry_if_exception_type(TransportServerError) & retry_if_exception(is_exception_401)`. -/
def retryable (e : MMError) : Bool := e.isTransportServerError && is_exception_401 e

/-- The result of one underlying RPC attempt. -/
inductive Outcome (α : Type) where
  | ok (payload : α)
  | err (e : MMError)
deriving Repr, DecidableEq

def outcomeExcept {α : Type} : Outcome α → Except MMError α
  | .ok p => .ok p
  | .err e => .error e

/-- A `monarchmoney.MonarchMoney` client instance: the session-file path it
was constructed with and a generation number standing for object identity. -/
structure MMClient where
  session_file : Option String
  gen : Nat
deriving Repr, DecidableEq

/-- The mutable state of a `Monarch` object: its configured session-file
path, the current client, the next fresh generation, and the log of
`self.mm.login` invocations (client generation, `use_saved_session`). -/
structure MonarchState where
  session_file : Option String
  mm : MMClient
  nextGen : Nat
  loginLog : List (Nat × Bool)
deriving Repr, DecidableEq

/-- `Monarch._init_mm`: construct a brand-new client; pass the configured
session-file path when one is set, else leave the library default (both cases
copy `self.session_file`, whose `none` stands for the default). -/
def init_mm (s : MonarchState) : MonarchState :=
  { s with mm := { session_file := s.session_file, gen := s.nextGen }
           nextGen := s.nextGen + 1 }

/-- `self.mm.login(...)`: record the login against the current client. -/
def mmLogin (use_saved_session : Bool) (s : MonarchState) : MonarchState :=
  { s with loginLog := s.loginLog ++ [(s.mm.gen, use_saved_session)] }

/-- `Monarch.login`: when `use_saved_session` is disabled, first force-clear
by constructing a fresh client via `_init_mm`, then log in. -/
def Monarch.login (use_saved_session : Bool) (s : MonarchState) : MonarchState :=
  mmLogin use_saved_session (if use_saved_session then s else init_mm s)

/-- tenacity `before_sleep` hook: `await instance.login(False)`. -/
def login_before_sleep (s : MonarchState) : MonarchState := Monarch.login false s

/-- `Monarch.__init__` (the fields the retry path touches): store the
session-file path and call `_init_mm`. -/
def mkMonarch (session_file : Option String) : MonarchState :=
  init_mm { session_file := session_file
            mm := { session_file := session_file, gen := 0 }
            nextGen := 0
            loginLog := [] }

/-- The tenacity-decorated RPC wrapper shared verbatim by `get_categories`,
`get_transactions`, `get_accounts` and `get_holdings`: run attempt 1; on
success return the payload; on a non-retryable error re-raise it
(`reraise=True`); on a retryable (401 `TransportServerError`) failure run
`login_before_sleep`, wait `retry_delay`, run attempt 2 and return its
outcome — `stop_after_attempt(2)` forbids a third attempt.  `attempt n st` is
the outcome of the `n`-th underlying call in state `st`; the result carries
the final state and the number of attempts made. -/
def retriedCall {α : Type} (attempt : Nat → MonarchState → Outcome α)
    (s : MonarchState) : Except MMError α × MonarchState × Nat :=
  match attempt 1 s with
  | .ok p => (.ok p, s, 1)
  | .err e =>
    if retryable e then
      let s2 := login_before_sleep s
      (outcomeExcept (attempt 2 s2), s2, 2)
    else (.error e, s, 1)

/-! ### Claims about the writers and the retry controller -/

/-- C8: a run of `write_balances_history` over `N` account rows on an empty
(or nonexistent) history file produces exactly one header row followed by the
`N` data rows; running again on the resulting nonempty file appends exactly
the `N` data rows — no second header — for a total of `2N + 1` lines. -/
theorem balances_history_header_once (accounts : List Account) :
    write_balances_history [] accounts =
      csvLine BALANCES_HEADER :: accounts.map balancesRowLine ∧
    (write_balances_history [] accounts).length = accounts.length + 1 ∧
    write_balances_history (write_balances_history [] accounts) accounts =
      write_balances_history [] accounts ++ accounts.map balancesRowLine ∧
    (write_balances_history (write_balances_history [] accounts) accounts).length =
      2 * accounts.length + 1 := by
  refine ⟨by simp [write_balances_history], ?_, ?_, ?_⟩
  · simp [write_balances_history]
  · simp [write_balances_history]
  · simp [write_balances_history]
    omega

/-- C2: when the retry controller performs its single retry after an
unauthorized failure, the state the second attempt runs in comes from
`login_before_sleep`: a brand-new client instance (fresh generation, never
the stale one) constructed with the configured session-file path, whose login
was recorded with `use_saved_session` disabled — and the retry's attempt 2 is
evaluated against exactly that state. -/
theorem retry_forces_fresh_client {α : Type} (s : MonarchState)
    (attempt : Nat → MonarchState → Outcome α) (e : MMError)
    (hgen : s.mm.gen < s.nextGen)
    (h1 : attempt 1 s = .err e) (hr : retryable e = true) :
    (retriedCall attempt s).2.1 = login_before_sleep s ∧
    (retriedCall attempt s).2.1.mm.gen ≠ s.mm.gen ∧
    (retriedCall attempt s).2.1.mm.session_file = s.session_file ∧
    (retriedCall attempt s).2.1.loginLog =
      s.loginLog ++ [((retriedCall attempt s).2.1.mm.gen, false)] ∧
    (retriedCall attempt s).1 = outcomeExcept (attempt 2 (login_before_sleep s)) := by
  refine ⟨?_, ?_, ?_, ?_, ?_⟩
  · simp [retriedCall, h1, hr]
  · simp only [retriedCall, h1, hr, if_true]
    simp [login_before_sleep, Monarch.login, mmLogin, init_mm]
    omega
  · simp [retriedCall, h1, hr, login_before_sleep, Monarch.login, mmLogin, init_mm]
  · simp [retriedCall, h1, hr, login_before_sleep, Monarch.login, mmLogin, init_mm]
  · simp [retriedCall, h1, hr]

/-- Closed instance of `retry_forces_fresh_client` on a concrete state and
attempt schedule. -/
theorem retry_forces_fresh_client_witness :
    (retriedCall (fun n _ => if n = 1 then Outcome.err ⟨true, 401⟩ else Outcome.ok 5)
        (mkMonarch (some "sess.pickle"))).2.1 =
      login_before_sleep (mkMonarch (some "sess.pickle")) ∧
    (retriedCall (fun n _ => if n = 1 then Outcome.err ⟨true, 401⟩ else Outcome.ok 5)
        (mkMonarch (some "sess.pickle"))).2.1.mm.gen ≠
      (mkMonarch (some "sess.pickle")).mm.gen ∧
    (retriedCall (fun n _ => if n = 1 then Outcome.err ⟨true, 401⟩ else Outcome.ok 5)
        (mkMonarch (some "sess.pickle"))).2.1.mm.session_file =
      (mkMonarch (some "sess.pickle")).session_file ∧
    (retriedCall (fun n _ => if n = 1 then Outcome.err ⟨true, 401⟩ else Outcome.ok 5)
        (mkMonarch (some "sess.pickle"))).2.1.loginLog =
      (mkMonarch (some "sess.pickle")).loginLog ++
        [((retriedCall (fun n _ => if n = 1 then Outcome.err ⟨true, 401⟩ else Outcome.ok 5)
            (mkMonarch (some "sess.pickle"))).2.1.mm.gen, false)] ∧
    (retriedCall (fun n _ => if n = 1 then Outcome.err ⟨true, 401⟩ else Outcome.ok 5)
        (mkMonarch (some "sess.pickle"))).1 =
      outcomeExcept ((fun n _ => if n = 1 then Outcome.err ⟨true, 401⟩ else Outcome.ok 5)
        2 (login_before_sleep (mkMonarch (some "sess.pickle")))) :=
  retry_forces_fresh_client (mkMonarch (some "sess.pickle"))
    (fun n _ => if n = 1 then Outcome.err ⟨true, 401⟩ else Outcome.ok 5)
    ⟨true, 401⟩ (by decide) rfl rfl

/-- The state right after `main`'s single initial `await m.login()` on a
freshly constructed `Monarch` — the point at which every wrapped RPC
operation starts. -/
def startState (sf : Option String) : MonarchState :=
  Monarch.login true (mkMonarch sf)

/-- C1: for the tenacity-wrapped RPC operations, starting from the program's
initial login: (a) first attempt unauthorized (a `TransportServerError` whose
`code` is 401) and second attempt successful — exactly 2 login invocations in
total, the successful payload returned unchanged; (b) first attempt failing
with any other error — a single attempt, no retry login, the error propagated
unchanged; (c) both attempts unauthorized — exactly 2 attempts, the second
failure propagated, no third attempt possible. -/
theorem retry_controller_outcomes {α : Type} (sf : Option String)
    (attempt : Nat → MonarchState → Outcome α) :
    (∀ e p, attempt 1 (startState sf) = .err e → retryable e = true →
      attempt 2 (login_before_sleep (startState sf)) = .ok p →
      (retriedCall attempt (startState sf)).1 = .ok p ∧
      (retriedCall attempt (startState sf)).2.2 = 2 ∧
      (retriedCall attempt (startState sf)).2.1.loginLog.length = 2) ∧
    (∀ e, attempt 1 (startState sf) = .err e → retryable e = false →
      (retriedCall attempt (startState sf)).1 = .error e ∧
      (retriedCall attempt (startState sf)).2.2 = 1 ∧
      (retriedCall attempt (startState sf)).2.1.loginLog.length = 1) ∧
    (∀ e e2, attempt 1 (startState sf) = .err e → retryable e = true →
      attempt 2 (login_before_sleep (startState sf)) = .err e2 →
      (retriedCall attempt (startState sf)).1 = .error e2 ∧
      (retriedCall attempt (startState sf)).2.2 = 2) := by
  refine ⟨fun e p h1 hr h2 => ⟨?_, ?_, ?_⟩, fun e h1 hr => ⟨?_, ?_, ?_⟩,
    fun e e2 h1 hr h2 => ⟨?_, ?_⟩⟩
  · simp [retriedCall, h1, hr, h2, outcomeExcept]
  · simp [retriedCall, h1, hr]
  · simp only [retriedCall, h1, hr, if_true]
    simp [login_before_sleep, Monarch.login, mmLogin, init_mm, startState, mkMonarch]
  · simp [retriedCall, h1, hr]
  · simp [retriedCall, h1, hr]
  · simp only [retriedCall, h1, hr, Bool.false_eq_true, if_false]
    simp [startState, Monarch.login, mmLogin, init_mm, mkMonarch]
  · simp [retriedCall, h1, hr, h2, outcomeExcept]
  · simp [retriedCall, h1, hr]

/-- Closed instances of `retry_controller_outcomes` on three concrete attempt
schedules: (unauthorized, success), (other error), and
(unauthorized, unauthorized). -/
theorem retry_controller_outcomes_witness :
    ((retriedCall (fun n _ => if n = 1 then Outcome.err ⟨true, 401⟩ else Outcome.ok 7)
        (startState none)).1 = .ok 7 ∧
      (retriedCall (fun n _ => if n = 1 then Outcome.err ⟨true, 401⟩ else Outcome.ok 7)
        (startState none)).2.2 = 2 ∧
      (retriedCall (fun n _ => if n = 1 then Outcome.err ⟨true, 401⟩ else Outcome.ok 7)
        (startState none)).2.1.loginLog.length = 2) ∧
    ((retriedCall (fun _ _ => (Outcome.err ⟨true, 500⟩ : Outcome Nat))
        (startState none)).1 = .error ⟨true, 500⟩ ∧
      (retriedCall (fun _ _ => (Outcome.err ⟨true, 500⟩ : Outcome Nat))
        (startState none)).2.2 = 1 ∧
      (retriedCall (fun _ _ => (Outcome.err ⟨true, 500⟩ : Outcome Nat))
        (startState none)).2.1.loginLog.length = 1) ∧
    ((retriedCall (fun n _ => if n = 1 then Outcome.err ⟨true, 401⟩
          else (Outcome.err ⟨true, 401⟩ : Outcome Nat))
        (startState none)).1 = .error ⟨true, 401⟩ ∧
      (retriedCall (fun n _ => if n = 1 then Outcome.err ⟨true, 401⟩
          else (Outcome.err ⟨true, 401⟩ : Outcome Nat))
        (startState none)).2.2 = 2) :=
  ⟨(retry_controller_outcomes none _).1 ⟨true, 401⟩ 7 rfl rfl rfl,
   (retry_controller_outcomes none _).2.1 ⟨true, 500⟩ rfl rfl,
   (retry_controller_outcomes none _).2.2 ⟨true, 401⟩ ⟨true, 401⟩ rfl rfl rfl⟩

/-! ### Claims about the category → group lookup -/

theorem dlookup_dinsert (m : List (String × String)) (k v k₀ : String) :
    dlookup (dinsert m k v) k₀ = if k = k₀ then some v else dlookup m k₀ := by
  induction m with
  | nil => rfl
  | cons hd tl ih =>
    obtain ⟨k', v'⟩ := hd
    by_cases h1 : k' = k
    · subst h1
      simp only [dinsert, if_pos rfl, dlookup]
      by_cases h2 : k' = k₀ <;> simp [h2, dlookup]
    · simp only [dinsert, if_neg h1, dlookup, ih]
      by_cases h2 : k' = k₀
      · have h3 : ¬ k = k₀ := fun hk => h1 ((hk.trans h2.symm).symm)
        simp [h2, h3]
      · by_cases h3 : k = k₀ <;> simp [h2, h3]

theorem dlookup_foldl_of_find_none (cats : List Category)
    (m : List (String × String)) (k : String)
    (h : (cats.reverse.find? fun c => toString c.id == k) = none) :
    dlookup (cats.foldl (fun m x => dinsert m (toString x.id) x.group_name) m) k =
      dlookup m k := by
  induction cats generalizing m with
  | nil => rfl
  | cons x xs ih =>
    rw [List.reverse_cons, List.find?_append, Option.or_eq_none] at h
    obtain ⟨hxs, hx⟩ := h
    simp only [List.foldl_cons]
    have hpx : ¬ toString x.id = k := by
      intro he
      have hfx : List.find? (fun c => toString c.id == k) [x] = some x :=
        List.find?_cons_of_pos [] (by simp [he])
      rw [hfx] at hx
      cases hx
    rw [ih _ hxs, dlookup_dinsert, if_neg hpx]

theorem dlookup_foldl_of_find_some (cats : List Category)
    (m : List (String × String)) (k : String) (c : Category)
    (h : (cats.reverse.find? fun x => toString x.id == k) = some c) :
    dlookup (cats.foldl (fun m x => dinsert m (toString x.id) x.group_name) m) k =
      some c.group_name := by
  induction cats generalizing m with
  | nil => simp at h
  | cons x xs ih =>
    rw [List.reverse_cons, List.find?_append] at h
    simp only [List.foldl_cons]
    cases hxs : xs.reverse.find? fun y => toString y.id == k with
    | some c' =>
      rw [hxs] at h
      simp only [Option.or] at h
      cases h
      exact ih _ hxs
    | none =>
      rw [hxs] at h
      simp only [Option.or] at h
      by_cases he : toString x.id = k
      · have hfx : List.find? (fun y => toString y.id == k) [x] = some x :=
          List.find?_cons_of_pos [] (by simp [he])
        rw [hfx] at h
        cases h
        rw [dlookup_foldl_of_find_none _ _ _ hxs, dlookup_dinsert, if_pos he]
      · have hfx : List.find? (fun y => toString y.id == k) [x] = none := by
          rw [List.find?_cons_of_neg [] (by simp [he]), List.find?_nil]
        rw [hfx] at h
        cases h

/-- C10: building the category → group lookup from a response with repeated
category identifiers succeeds (it is a total fold) and resolves every key to
the group name of the last category with that stringified identifier in
input order (the first match in the reversed list); consequently, on a
concrete duplicated response the lookup has fewer entries than the response
has categories. -/
theorem make_map_duplicate_ids :
    (∀ (cats : List Category) (k : String),
      dlookup (make_map cats) k =
        (cats.reverse.find? fun c => toString c.id == k).map Category.group_name) ∧
    make_map [⟨7, "catA", "GroupA"⟩, ⟨7, "catB", "GroupB"⟩] = [("7", "GroupB")] ∧
    (make_map [⟨7, "catA", "GroupA"⟩, ⟨7, "catB", "GroupB"⟩]).length <
      ([⟨7, "catA", "GroupA"⟩, ⟨7, "catB", "GroupB"⟩] : List Category).length := by
  refine ⟨fun cats k => ?_, by decide, by decide⟩
  cases hf : cats.reverse.find? fun c => toString c.id == k with
  | some c => exact dlookup_foldl_of_find_some cats [] k c hf
  | none => exact dlookup_foldl_of_find_none cats [] k hf

/-- C9 counterexample: a valid category-list response may repeat an
identifier; then the lookup does not contain one entry per category — here
two categories yield a single entry. -/
theorem make_map_entry_per_category_counterexample :
    make_map [⟨1, "catA", "GroupA"⟩, ⟨1, "catB", "GroupB"⟩] = [("1", "GroupB")] ∧
    (make_map [⟨1, "catA", "GroupA"⟩, ⟨1, "catB", "GroupB"⟩]).length ≠
      ([⟨1, "catA", "GroupA"⟩, ⟨1, "catB", "GroupB"⟩] : List Category).length :=
  ⟨by decide, by decide⟩

theorem dinsert_of_not_mem (m : List (String × String)) (k v : String)
    (h : k ∉ m.map Prod.fst) :
    dinsert m k v = m ++ [(k, v)] := by
  induction m with
  | nil => rfl
  | cons hd tl ih =>
    obtain ⟨k', v'⟩ := hd
    simp only [List.map_cons, List.mem_cons] at h
    push_neg at h
    have hne : ¬ k' = k := fun he => h.1 he.symm
    simp only [dinsert, if_neg hne, List.cons_append, List.cons.injEq, true_and]
    exact ih h.2

theorem make_map_foldl_nodup (cats : List Category) (m : List (String × String))
    (hnd : (cats.map fun c => toString c.id).Nodup)
    (hm : ∀ c ∈ cats, (toString c.id) ∉ m.map Prod.fst) :
    cats.foldl (fun m x => dinsert m (toString x.id) x.group_name) m =
      m ++ cats.map fun c => (toString c.id, c.group_name) := by
  induction cats generalizing m with
  | nil => simp
  | cons x xs ih =>
    simp only [List.map_cons, List.nodup_cons] at hnd
    simp only [List.foldl_cons]
    rw [dinsert_of_not_mem m _ _ (hm x (List.mem_cons_self x xs))]
    rw [ih (m ++ [(toString x.id, x.group_name)]) hnd.2]
    · simp
    · intro c hc
      simp only [List.map_append, List.mem_append]
      push_neg
      refine ⟨hm c (List.mem_cons_of_mem x hc), ?_⟩
      simp only [List.map_cons, List.map_nil, List.mem_singleton]
      intro he
      exact hnd.1 (he ▸ List.mem_map_of_mem (fun c => toString c.id) hc)

/-- C9 (amended): for a valid category-list response whose stringified
identifiers are pairwise distinct, the lookup is exactly one entry per
category, in input order, keyed by the stringified identifier, valued with
the category group's display name. -/
theorem make_map_entry_per_category (cats : List Category)
    (h : (cats.map fun c => toString c.id).Nodup) :
    make_map cats = cats.map fun c => (toString c.id, c.group_name) := by
  have hgo := make_map_foldl_nodup cats [] h (by simp)
  simpa [make_map] using hgo

/-- Closed instance of `make_map_entry_per_category` on a concrete
two-category response with distinct identifiers. -/
theorem make_map_entry_per_category_witness :
    make_map [⟨11, "catA", "GroupA"⟩, ⟨22, "catB", "GroupB"⟩] =
      ([⟨11, "catA", "GroupA"⟩, ⟨22, "catB", "GroupB"⟩] : List Category).map
        fun c => (toString c.id, c.group_name) :=
  make_map_entry_per_category _ (by decide)

/-! ### Claims about transaction mapping -/

/-- C3: when the category lookup covers every category identifier referenced
by the transaction list, mapping succeeds with exactly one row per input
transaction, pairwise in input order, and each output row is the flattening
of its input row with `group` bound to the lookup's value at the stringified
category identifier. -/
theorem transactions_mapping_complete (catmap : List (String × String))
    (rows : List TxRow)
    (h : ∀ r ∈ rows, (dlookup catmap (toString r.category_id)).isSome) :
    ∃ ts, make_csv_rows catmap rows = some ts ∧ ts.length = rows.length ∧
      List.Forall₂ (fun r t => ∃ g,
        dlookup catmap (toString r.category_id) = some g ∧
          t = Transaction.fromRowG r g) rows ts := by
  induction rows with
  | nil => exact ⟨[], rfl, rfl, List.Forall₂.nil⟩
  | cons r rs ih =>
    obtain ⟨g, hg⟩ := Option.isSome_iff_exists.mp (h r (List.mem_cons_self r rs))
    obtain ⟨ts, hts, hlen, hfa⟩ := ih fun x hx => h x (List.mem_cons_of_mem r hx)
    refine ⟨Transaction.fromRowG r g :: ts, ?_, by simp [hlen], ?_⟩
    · simp [make_csv_rows, Transaction.fromRow, hg, hts]
    · exact List.Forall₂.cons ⟨g, hg, rfl⟩ hfa

/-- Closed instance of `transactions_mapping_complete` on a one-transaction
list with a covering lookup. -/
theorem transactions_mapping_complete_witness :
    ∃ ts,
      make_csv_rows [("5", "Personal")]
          [⟨1, ⟨false, [4, 2], []⟩, "2026-01-02", none, "MerchantA", "Checking", 5,
            "Restaurants"⟩] = some ts ∧
      ts.length =
        ([⟨1, ⟨false, [4, 2], []⟩, "2026-01-02", none, "MerchantA", "Checking", 5,
          "Restaurants"⟩] : List TxRow).length ∧
      List.Forall₂ (fun r t => ∃ g,
        dlookup [("5", "Personal")] (toString r.category_id) = some g ∧
          t = Transaction.fromRowG r g)
        [⟨1, ⟨false, [4, 2], []⟩, "2026-01-02", none, "MerchantA", "Checking", 5,
          "Restaurants"⟩] ts :=
  transactions_mapping_complete _ _ (by decide)

theorem make_csv_rows_none_of_mem (catmap : List (String × String))
    (rows : List TxRow) (r : TxRow) (hmem : r ∈ rows)
    (hnone : Transaction.fromRow catmap r = none) :
    make_csv_rows catmap rows = none := by
  induction rows with
  | nil => cases hmem
  | cons x xs ih =>
    rcases List.mem_cons.mp hmem with he | hm
    · subst he
      simp [make_csv_rows, hnone]
    · rw [make_csv_rows, ih hm]
      cases Transaction.fromRow catmap x <;> rfl

/-- C4: one transaction whose category identifier is missing from the lookup
makes the whole mapping fail — no partial row list exists — and
`report_transactions` therefore produces no transactions CSV at all. -/
theorem report_transactions_no_partial_output (cats : List Category)
    (txs : List TxRow) (r : TxRow) (hmem : r ∈ txs)
    (hmiss : dlookup (make_map cats) (toString r.category_id) = none) :
    make_csv_rows (make_map cats) txs = none ∧
    report_transactions cats txs = none := by
  have hnone : Transaction.fromRow (make_map cats) r = none := by
    simp [Transaction.fromRow, hmiss]
  have h1 := make_csv_rows_none_of_mem _ _ _ hmem hnone
  exact ⟨h1, by simp [report_transactions, h1]⟩

/-- Closed instance of `report_transactions_no_partial_output`: a category
response for id 5 cannot resolve a transaction referencing id 9. -/
theorem report_transactions_no_partial_output_witness :
    make_csv_rows (make_map [⟨5, "Restaurants", "Personal"⟩])
        [⟨1, ⟨false, [4, 2], []⟩, "2026-01-02", none, "MerchantA", "Checking", 9,
          "Mystery"⟩] = none ∧
    report_transactions [⟨5, "Restaurants", "Personal"⟩]
        [⟨1, ⟨false, [4, 2], []⟩, "2026-01-02", none, "MerchantA", "Checking", 9,
          "Mystery"⟩] = none :=
  report_transactions_no_partial_output _ _
    ⟨1, ⟨false, [4, 2], []⟩, "2026-01-02", none, "MerchantA", "Checking", 9, "Mystery"⟩
    (by decide) (by decide)

/-! ### Claims about the portfolio report -/

theorem report_portfolio_foldl (fetch : Int → List AggregateHoldingRow)
    (accounts : List Account) (c0 : List Int) (h0 : List Holding) :
    accounts.foldl
      (fun acc account =>
        if 0 < account.holdingsCount then
          let holdings_query := holdings_csv_rows (fetch account.id)
          let filled := holdings_query.map fun x => { x with account := some account.account }
          (acc.1 ++ [account.id], acc.2 ++ filled)
        else acc)
      (c0, h0) =
      (c0 ++ (accounts.filter fun a => 0 < a.holdingsCount).map Account.id,
        h0 ++ (accounts.filter fun a => 0 < a.holdingsCount).flatMap
          fun a => (holdings_csv_rows (fetch a.id)).map
            fun x => { x with account := some a.account }) := by
  induction accounts generalizing c0 h0 with
  | nil => simp
  | cons a as ih =>
    simp only [List.foldl_cons]
    by_cases hc : 0 < a.holdingsCount
    · have hpa : (decide (0 < a.holdingsCount)) = true := decide_eq_true hc
      simp [if_pos hc, ih, List.filter_cons, hpa, List.flatMap_cons, List.append_assoc]
    · have hna : ¬ ((decide (0 < a.holdingsCount)) = true) := by simpa using hc
      simp [if_neg hc, ih, List.filter_cons, hna]

/-- C5: under the data-model invariant `holdingsCount ≥ 0`, `report_portfolio`
issues a holdings-fetch call exactly for the accounts with nonzero holdings
count (in list order), its holdings output is exactly the per-account mapped
lists with the `account` field backfilled, and hence every written holding
row carries the display name of the account whose query produced it. -/
theorem portfolio_queries_nonzero_and_backfills (fetch : Int → List AggregateHoldingRow)
    (accounts : List Account) (h : ∀ a ∈ accounts, 0 ≤ a.holdingsCount) :
    (report_portfolio fetch accounts).1 =
      (accounts.filter fun a => a.holdingsCount ≠ 0).map Account.id ∧
    (report_portfolio fetch accounts).2 =
      (accounts.filter fun a => a.holdingsCount ≠ 0).flatMap
        (fun a => (holdings_csv_rows (fetch a.id)).map
          fun x => { x with account := some a.account }) ∧
    ∀ hld ∈ (report_portfolio fetch accounts).2, ∃ a, a ∈ accounts ∧
      a.holdingsCount ≠ 0 ∧ hld.account = some a.account := by
  have hfeq : (accounts.filter fun a => 0 < a.holdingsCount) =
      (accounts.filter fun a => a.holdingsCount ≠ 0) := by
    apply List.filter_congr
    intro a ha
    have := h a ha
    simp only [decide_eq_decide]
    omega
  have hfold := report_portfolio_foldl fetch accounts [] []
  rw [report_portfolio, hfold]
  refine ⟨by simp [hfeq], by simp [hfeq], ?_⟩
  intro hld hmem
  simp only [List.nil_append, List.mem_flatMap, List.mem_filter, List.mem_map] at hmem
  obtain ⟨a, ⟨hmem_a, hnz⟩, x, hx, hxe⟩ := hmem
  have h1 : 0 < a.holdingsCount := by simpa using hnz
  refine ⟨a, hmem_a, by omega, ?_⟩
  rw [← hxe]

/-- A concrete account list (one zero-holdings account, one with two
holdings) and holdings response used to witness the portfolio claim. -/
def portfolioAccountsEx : List Account :=
  [⟨1, "Checking", decOfLit ⟨false, [5], []⟩, 0, "t1", "d1"⟩,
   ⟨2, "Brokerage", decOfLit ⟨false, [5], []⟩, 2, "t2", "d2"⟩]

/-- A concrete holdings-fetch response for the witness. -/
def portfolioFetchEx : Int → List AggregateHoldingRow := fun _ =>
  [⟨31, ⟨false, [1, 2], [5]⟩, ⟨false, [9], []⟩, "AAA", ⟨false, [3, 3], [0, 3]⟩⟩]

/-- Closed instance of `portfolio_queries_nonzero_and_backfills` on
`portfolioAccountsEx` / `portfolioFetchEx`. -/
theorem portfolio_queries_nonzero_and_backfills_witness :
    (report_portfolio portfolioFetchEx portfolioAccountsEx).1 =
      (portfolioAccountsEx.filter fun a => a.holdingsCount ≠ 0).map Account.id ∧
    (report_portfolio portfolioFetchEx portfolioAccountsEx).2 =
      (portfolioAccountsEx.filter fun a => a.holdingsCount ≠ 0).flatMap
        (fun a => (holdings_csv_rows (portfolioFetchEx a.id)).map
          fun x => { x with account := some a.account }) ∧
    ∀ hld ∈ (report_portfolio portfolioFetchEx portfolioAccountsEx).2, ∃ a,
      a ∈ portfolioAccountsEx ∧ a.holdingsCount ≠ 0 ∧
      hld.account = some a.account :=
  portfolio_queries_nonzero_and_backfills portfolioFetchEx portfolioAccountsEx
    (by decide)

/-! ### Claims about the Eastern calendar date -/

theorem easternOffset_cases (t : Int) :
    easternOffset t = -14400 ∨ easternOffset t = -18000 := by
  by_cases hc : dstStartUtc ((civilFromDays (t / 86400)).1) ≤ t ∧
      t < dstEndUtc ((civilFromDays (t / 86400)).1)
  · left
    simp [easternOffset, hc]
  · right
    simp [easternOffset, hc]

/-- C7: `date_eastern` is the calendar date of the `updatedAt` instant
shifted into America/New_York (never a truncation of the UTC text), and for
any instant whose UTC time of day is before the Eastern-midnight boundary the
derived date is the previous calendar day relative to the UTC date. -/
theorem date_eastern_via_timezone (row : AccountRow) :
    (Account.ofRow row).date_eastern =
      isoDate (civilFromDays ((row.updatedAt + easternOffset row.updatedAt) / 86400)) ∧
    (row.updatedAt % 86400 < -(easternOffset row.updatedAt) →
      (Account.ofRow row).date_eastern =
        isoDate (civilFromDays (row.updatedAt / 86400 - 1))) := by
  refine ⟨rfl, fun hb => ?_⟩
  have hoff := easternOffset_cases row.updatedAt
  have hdiv : (row.updatedAt + easternOffset row.updatedAt) / 86400 =
      row.updatedAt / 86400 - 1 := by
    rcases hoff with h | h <;> rw [h] at hb ⊢ <;> omega
  show isoDate (civilFromDays ((row.updatedAt + easternOffset row.updatedAt) / 86400)) = _
  rw [hdiv]

/-- An account updated at 2026-01-12T02:00:00Z — after midnight UTC, before
midnight Eastern. -/
def boundaryAccountRowEx : AccountRow :=
  ⟨1, "Checking", ⟨false, [1, 8, 1, 1], [7, 1]⟩, 0,
    daysFromCivil 2026 1 12 * 86400 + 7200, 0⟩

/-- Closed instance of `date_eastern_via_timezone`: at 02:00 UTC the Eastern
date is the previous day, while the UTC date (which string truncation would
give) is not. -/
theorem date_eastern_via_timezone_witness :
    (Account.ofRow boundaryAccountRowEx).date_eastern =
      isoDate (civilFromDays (boundaryAccountRowEx.updatedAt / 86400 - 1)) ∧
    (Account.ofRow boundaryAccountRowEx).date_eastern = "2026-01-11" ∧
    isoDate (civilFromDays (boundaryAccountRowEx.updatedAt / 86400)) = "2026-01-12" :=
  ⟨(date_eastern_via_timezone boundaryAccountRowEx).2 (by decide), by decide, by decide⟩
theorem stripZeros_ne_nil (ds : List Nat) : stripZeros ds ≠ [] := by
  induction ds with
  | nil => simp [stripZeros]
  | cons d tl ih =>
    cases tl with
    | nil => simp [stripZeros]
    | cons e tl' =>
      simp only [stripZeros]
      split_ifs with h
      · exact ih
      · simp

theorem stripZeros_length_le (ds : List Nat) (h : ds ≠ []) :
    (stripZeros ds).length ≤ ds.length := by
  induction ds with
  | nil => cases h rfl
  | cons d tl ih =>
    cases tl with
    | nil => simp [stripZeros]
    | cons e tl' =>
      simp only [stripZeros]
      split_ifs with hd
      · have hle := ih (by simp)
        simp only [List.length_cons] at hle ⊢
        omega
      · simp

theorem stripZeros_replicate (ds : List Nat) (h : ds ≠ []) :
    List.replicate (ds.length - (stripZeros ds).length) 0 ++ stripZeros ds = ds := by
  induction ds with
  | nil => cases h rfl
  | cons d tl ih =>
    cases tl with
    | nil => simp [stripZeros]
    | cons e tl' =>
      simp only [stripZeros]
      split_ifs with hd
      · subst hd
        have hlen := stripZeros_length_le (e :: tl') (by simp)
        have hstep : (0 :: e :: tl' : List Nat).length - (stripZeros (e :: tl')).length =
            ((e :: tl').length - (stripZeros (e :: tl')).length) + 1 := by
          simp only [List.length_cons] at hlen ⊢
          omega
        rw [hstep, List.replicate_succ, List.cons_append, ih (by simp)]
      · simp

theorem stripZeros_cons_of_ne (d : Nat) (ds : List Nat) (h : d ≠ 0) :
    stripZeros (d :: ds) = d :: ds := by
  cases ds with
  | nil => simp [stripZeros]
  | cons e tl => simp [stripZeros, h]

theorem stripZeros_cons_zero (f : List Nat) (h : f ≠ []) :
    stripZeros (0 :: f) = stripZeros f := by
  cases f with
  | nil => cases h rfl
  | cons e tl => simp [stripZeros]

theorem decimal_roundtrip (l : DecLiteral)
    (hne : l.intPart ≠ [])
    (hcanon : l.intPart.head? = some 0 → l.intPart = [0])
    (hadj : -6 ≤ (decOfLit l).exp + (decOfLit l).digits.length - 1) :
    decToString (decOfLit l) = l.render := by
  obtain ⟨neg, ip, fp⟩ := l
  simp only at hne hcanon hadj ⊢
  cases ip with
  | nil => cases hne rfl
  | cons d ds =>
  by_cases hd0 : d = 0
  · -- leading digit zero: canonical form forces intPart = [0]
    have hip : (d :: ds : List Nat) = [0] := hcanon (by simp [hd0])
    rw [hip] at hadj ⊢
    cases hfp : fp with
    | nil =>
      subst hfp
      cases neg <;> simp [decOfLit, decToString, DecLiteral.render, stripZeros, digitsStr]
    | cons f fs =>
      -- "0.xyz..." : digits = stripZeros fp, exponent = -|fp|
      subst hfp
      have hfne : (f :: fs : List Nat) ≠ [] := by simp
      have hsz : stripZeros ([0] ++ f :: fs) = stripZeros (f :: fs) := by
        rw [List.singleton_append, stripZeros_cons_zero _ hfne]
      have hn1 : 1 ≤ (stripZeros (f :: fs)).length :=
        List.length_pos.mpr (stripZeros_ne_nil _)
      have hnle : (stripZeros (f :: fs)).length ≤ (f :: fs).length :=
        stripZeros_length_le _ hfne
      rw [decOfLit] at hadj
      simp only [hsz] at hadj
      simp only [decOfLit, decToString, hsz]
      have hexp : ¬ (-(((f :: fs) : List Nat).length : Int) = 0) := by
        simp only [List.length_cons]
        omega
      have hcond : (-(((f :: fs) : List Nat).length : Int) ≤ 0 ∧
          -6 ≤ -(((f :: fs) : List Nat).length : Int) +
            ((stripZeros (f :: fs)).length : Int) - 1) := by
        constructor
        · omega
        · exact_mod_cast hadj
      rw [if_pos hcond, if_neg hexp]
      have hpoint : ¬ (0 < ((stripZeros (f :: fs)).length : Int) +
          -(((f :: fs) : List Nat).length : Int)) := by
        omega
      rw [if_neg hpoint]
      have htonat : (-(((stripZeros (f :: fs)).length : Int) +
          -(((f :: fs) : List Nat).length : Int))).toNat =
          (f :: fs).length - (stripZeros (f :: fs)).length := by
        omega
      rw [htonat, stripZeros_replicate _ hfne]
      -- now: s ++ "0." ++ digitsStr (f :: fs) = s ++ digitsStr [0] ++ ("." ++ digitsStr (f :: fs))
      have h0 : ("0" : String) ++ "." = "0." := rfl
      cases neg <;>
        simp [DecLiteral.render, digitsStr, digitChar, String.append_assoc] <;> rfl
  · -- leading digit nonzero: coefficient keeps all digits
    have hsz : stripZeros ((d :: ds) ++ fp) = (d :: ds) ++ fp := by
      rw [List.cons_append]
      exact stripZeros_cons_of_ne d (ds ++ fp) hd0
    cases hfp : fp with
    | nil =>
      subst hfp
      have hsz' : stripZeros (d :: ds) = d :: ds := stripZeros_cons_of_ne d ds hd0
      simp only [decOfLit, decToString, List.append_nil, hsz']
      have hexp : (-(([] : List Nat).length : Int) = 0) := by simp
      have hcond : ((-(([] : List Nat).length : Int)) ≤ 0 ∧
          -6 ≤ (-(([] : List Nat).length : Int)) + ((d :: ds : List Nat).length : Int) - 1) := by
        refine ⟨by simp, ?_⟩
        simp only [List.length_nil, List.length_cons]
        push_cast
        omega
      rw [if_pos hcond, if_pos hexp]
      cases neg <;> simp [DecLiteral.render, digitsStr]
    | cons f fs =>
      subst hfp
      simp only [decOfLit, decToString, hsz]
      have hexp : ¬ (-(((f :: fs) : List Nat).length : Int) = 0) := by
        simp only [List.length_cons]
        omega
      have hcond : (-(((f :: fs) : List Nat).length : Int) ≤ 0 ∧
          -6 ≤ -(((f :: fs) : List Nat).length : Int) +
            (((d :: ds) ++ f :: fs : List Nat).length : Int) - 1) := by
        constructor
        · omega
        · simp only [List.length_append, List.length_cons]
          push_cast
          omega
      rw [if_pos hcond, if_neg hexp]
      have hpoint : (0 < (((d :: ds) ++ f :: fs : List Nat).length : Int) +
          -(((f :: fs) : List Nat).length : Int)) := by
        simp only [List.length_append, List.length_cons]
        push_cast
        omega
      rw [if_pos hpoint]
      have htonat : ((((d :: ds) ++ f :: fs : List Nat).length : Int) +
          -(((f :: fs) : List Nat).length : Int)).toNat = (d :: ds : List Nat).length := by
        simp only [List.length_append, List.length_cons]
        omega
      rw [htonat, List.take_left, List.drop_left]
      cases neg <;> simp [DecLiteral.render, digitsStr, String.append_assoc]

/-- C6 (amended): every decimal-valued field (holding share quantity, price,
cost basis, account balance, transaction amount) round-trips from the source
response text through mapping to the CSV cell text exactly — provided the
source text is a plain canonical decimal numeral (nonempty integer part with
no redundant leading zero, no exponent marker, no explicit plus sign) whose
adjusted exponent is at least `-6`; outside that range Python's `Decimal`
renders scientific notation (see the counterexample). -/
theorem decimal_fields_roundtrip (l : DecLiteral)
    (hne : l.intPart ≠ [])
    (hcanon : l.intPart.head? = some 0 → l.intPart = [0])
    (hadj : -6 ≤ (decOfLit l).exp + (decOfLit l).digits.length - 1) :
    decToString (decOfLit l) = l.render ∧
    (∀ node : AggregateHoldingRow, node.quantity = l →
      (Holding.ofRow node).shares = l.render) ∧
    (∀ node : AggregateHoldingRow, node.security_currentPrice = l →
      (Holding.ofRow node).price = l.render) ∧
    (∀ node : AggregateHoldingRow, node.basis = l →
      (Holding.ofRow node).cost = l.render) ∧
    (∀ row : AccountRow, row.currentBalance = l →
      decToString (Account.ofRow row).balance = l.render) ∧
    (∀ (row : TxRow) (g : String), row.amount = l →
      decToString (Transaction.fromRowG row g).amount = l.render) := by
  have h := decimal_roundtrip l hne hcanon hadj
  refine ⟨h, fun node he => ?_, fun node he => ?_, fun node he => ?_,
    fun row he => ?_, fun row g he => ?_⟩ <;>
    simp [Holding.ofRow, Account.ofRow, Transaction.fromRowG, he, h]

/-- Closed instance of `decimal_fields_roundtrip` at the source text
`1811.71`. -/
theorem decimal_fields_roundtrip_witness :
    decToString (decOfLit ⟨false, [1, 8, 1, 1], [7, 1]⟩) =
      DecLiteral.render ⟨false, [1, 8, 1, 1], [7, 1]⟩ ∧
    (∀ node : AggregateHoldingRow, node.quantity = ⟨false, [1, 8, 1, 1], [7, 1]⟩ →
      (Holding.ofRow node).shares = DecLiteral.render ⟨false, [1, 8, 1, 1], [7, 1]⟩) ∧
    (∀ node : AggregateHoldingRow,
      node.security_currentPrice = ⟨false, [1, 8, 1, 1], [7, 1]⟩ →
      (Holding.ofRow node).price = DecLiteral.render ⟨false, [1, 8, 1, 1], [7, 1]⟩) ∧
    (∀ node : AggregateHoldingRow, node.basis = ⟨false, [1, 8, 1, 1], [7, 1]⟩ →
      (Holding.ofRow node).cost = DecLiteral.render ⟨false, [1, 8, 1, 1], [7, 1]⟩) ∧
    (∀ row : AccountRow, row.currentBalance = ⟨false, [1, 8, 1, 1], [7, 1]⟩ →
      decToString (Account.ofRow row).balance =
        DecLiteral.render ⟨false, [1, 8, 1, 1], [7, 1]⟩) ∧
    (∀ (row : TxRow) (g : String), row.amount = ⟨false, [1, 8, 1, 1], [7, 1]⟩ →
      decToString (Transaction.fromRowG row g).amount =
        DecLiteral.render ⟨false, [1, 8, 1, 1], [7, 1]⟩) :=
  decimal_fields_roundtrip ⟨false, [1, 8, 1, 1], [7, 1]⟩ (by decide) (by decide)
    (by decide)

/-- C6 counterexample: the valid share-quantity text `0.0000001` maps to the
CSV cell text `1E-7` — scientific notation, not string-equal to the source
value. -/
theorem decimal_fields_roundtrip_counterexample :
    (Holding.ofRow ⟨31, ⟨false, [0], [0, 0, 0, 0, 0, 0, 1]⟩, ⟨false, [1], []⟩, "AAA",
        ⟨false, [1], []⟩⟩).shares = "1E-7" ∧
    DecLiteral.render ⟨false, [0], [0, 0, 0, 0, 0, 0, 1]⟩ = "0.0000001" ∧
    (Holding.ofRow ⟨31, ⟨false, [0], [0, 0, 0, 0, 0, 0, 1]⟩, ⟨false, [1], []⟩, "AAA",
        ⟨false, [1], []⟩⟩).shares ≠
      DecLiteral.render ⟨false, [0], [0, 0, 0, 0, 0, 0, 1]⟩ :=
  ⟨by decide, by decide, by decide⟩
